import Mathlib

/-!
Formal model of the translation bundle reconciliation engine in
`coursebuilder/modules/i18n_dashboard/i18n_dashboard.py`.

Python dictionaries that the engine mutates are modelled as association
lists (`List (String × α)`) with Python's update-in-place-or-append
semantics (`dictSet`).  A DTO argument of `None` is observationally
equivalent, in every code path modelled here, to a DTO holding an empty
dict, so bundle and progress parameters are passed as plain dictionaries.
External collaborators (the `xcontent` alignment oracle, the HTML
decomposer/recomposer, the gettext translation store) are not part of the
single source file; they are passed in as explicit function parameters.
-/

namespace I18nDashboard

/-- Verbs produced by the `xcontent` alignment oracle
(`VERB_NEW`, `VERB_CHANGED`, `VERB_CURRENT`). -/
inductive Verb where
  | vnew : Verb
  | vchanged : Verb
  | vcurrent : Verb
deriving DecidableEq, Repr

/-- One stored source/target pair inside a field record
(an element of `resource_bundle_dto.dict[name]['data']`). -/
structure ChunkRec where
  source_value : String
  target_value : String
deriving DecidableEq, Repr

/-- One stored field record (`resource_bundle_dto.dict[name]`):
`type`, the undecomposed `source_value` (only set for html fields,
`None` otherwise, modelled as `Option`), and the chunk list `data`. -/
structure FieldRecord where
  type : String
  source_value : Option String
  data : List ChunkRec
deriving DecidableEq, Repr

/-- One item of a section's `data` list as built by
`build_sections_for_key`: current source, old source (for `CHANGED`),
target, verb, and the `changed` (edited) flag. -/
structure SectionItem where
  source_value : String
  old_source_value : String
  target_value : String
  verb : Verb
  changed : Bool
deriving DecidableEq, Repr

/-- One section produced for a single field during one reconciliation
pass: `{name, label, type, source_value, data}`. -/
structure Section where
  name : String
  label : String
  type : String
  source_value : String
  data : List SectionItem
deriving DecidableEq, Repr

/-- The field type marking composite (rich) fields (`TYPE_HTML`). -/
def TYPE_HTML : String := "html"

/-- Association-list read, mirroring `dict.get(k)`. -/
def dictGet {α : Type} (l : List (String × α)) (k : String) : Option α :=
  match l with
  | [] => none
  | (k', v') :: rest => if k' = k then some v' else dictGet rest k

/-- Association-list write, mirroring `dict[k] = v`: replace in place if
the key is present, append otherwise. -/
def dictSet {α : Type} (l : List (String × α)) (k : String) (v : α) :
    List (String × α) :=
  match l with
  | [] => [(k, v)]
  | (k', v') :: rest =>
      if k' = k then (k, v) :: rest else (k', v') :: dictSet rest k v

/-- A resource bundle's dict: field name → field record. -/
abbrev BundleDict := List (String × FieldRecord)

/-- Progress constants of `I18nProgressDTO`. -/
def NOT_STARTED : Nat := 0

/-- Progress constant `I18nProgressDTO.IN_PROGRESS`. -/
def IN_PROGRESS : Nat := 1

/-- Progress constant `I18nProgressDTO.DONE`. -/
def DONE : Nat := 2

/-- The progress mapping of an `I18nProgressDTO`: locale → progress. -/
structure I18nProgressDTO where
  progress : List (String × Nat)
deriving DecidableEq, Repr

/-- `I18nProgressDTO.set_progress(locale, value)`. -/
def I18nProgressDTO.set_progress (p : I18nProgressDTO) (locale : String)
    (value : Nat) : I18nProgressDTO :=
  { progress := dictSet p.progress locale value }

/-- `I18nProgressDTO.get_progress(locale)` (defaults to `NOT_STARTED`). -/
def I18nProgressDTO.get_progress (p : I18nProgressDTO) (locale : String) :
    Nat :=
  (dictGet p.progress locale).getD NOT_STARTED

/-! ### The Bundle/Progress Updater
`TranslationConsoleRestHandler.update_dtos_with_section_data`. -/

/-- The inner per-section loop of `update_dtos_with_section_data`:
folds over `section['data']`, producing the `changed` flag and the merged
`data` list exactly as the Python loop does. -/
def sectionMerge (items : List SectionItem) : Bool × List ChunkRec :=
  items.foldl
    (fun acc item =>
      let changed := acc.1
      let data := acc.2
      if item.changed then
        (true, data ++ [⟨item.source_value, item.target_value⟩])
      else if item.verb = Verb.vchanged then
        (changed, data ++ [⟨item.old_source_value, item.target_value⟩])
      else if item.verb = Verb.vcurrent then
        (changed, data ++ [⟨item.source_value, item.target_value⟩])
      else
        (changed, data))
    (false, [])

/-- The field record written for a section when its merged data is
persisted: `{'type': ..., 'source_value': ..., 'data': ...}` with
`source_value` kept only for html sections. -/
def mergedFieldRecord (s : Section) : FieldRecord :=
  { type := s.type
    source_value := if s.type = TYPE_HTML then some s.source_value else none
    data := (sectionMerge s.data).2 }

/-- The bundle-updating half of `update_dtos_with_section_data`: for each
section, write the merged record into the bundle dict only when some item
had `changed` (edited) set. -/
def applyMerge (bundle : BundleDict) (sections : List Section) :
    BundleDict :=
  sections.foldl
    (fun b s =>
      if (sectionMerge s.data).1 then dictSet b s.name (mergedFieldRecord s)
      else b)
    bundle

/-- The per-item step of the progress loop: updates the
`(any_done, all_done)` accumulator exactly as the two `if` statements of
the Python loop do. -/
def progressStep (acc : Bool × Bool) (item : SectionItem) : Bool × Bool :=
  let both_blank := item.source_value = "" && item.target_value = ""
  let has_up_to_date_translation :=
    item.target_value ≠ "" &&
      (item.verb = Verb.vcurrent || item.changed)
  let acc' :=
    if both_blank || has_up_to_date_translation then (true, acc.2)
    else (acc.1, false)
  if item.verb = Verb.vchanged && !item.changed && item.target_value ≠ ""
  then (true, false)
  else acc'

/-- The progress half of `update_dtos_with_section_data`: fold the
per-item step over every item of every section, starting from
`any_done = False`, `all_done = True`. -/
def progressFold (sections : List Section) : Bool × Bool :=
  sections.foldl (fun acc s => s.data.foldl progressStep acc) (false, true)

/-- The progress value derived at the end of
`update_dtos_with_section_data`. -/
def computeProgress (sections : List Section) : Nat :=
  let acc := progressFold sections
  if acc.2 then DONE else if acc.1 then IN_PROGRESS else NOT_STARTED

/-- `TranslationConsoleRestHandler.update_dtos_with_section_data`:
merge the sections into the bundle dict and write the derived progress
for the key's locale.  Mutation in place is modelled by returning the
updated pair. -/
def update_dtos_with_section_data (locale : String)
    (sections : List Section) (bundle : BundleDict)
    (progress : I18nProgressDTO) : BundleDict × I18nProgressDTO :=
  (applyMerge bundle sections,
   progress.set_progress locale (computeProgress sections))

/-! ### Specification-side definitions for the Updater
These restate the spec's per-chunk merge rule and progress rule in the
spec's own words, for comparison against the code model above. -/

/-- Spec wording of the per-chunk merge rule: `edited=true` overwrites
with the current source and the edited value; `CHANGED` writes the old
source with the current target; `CURRENT` writes unchanged; `NEW` writes
nothing. -/
def chunkRule (i : SectionItem) : Option ChunkRec :=
  if i.changed then some ⟨i.source_value, i.target_value⟩
  else
    match i.verb with
    | Verb.vchanged => some ⟨i.old_source_value, i.target_value⟩
    | Verb.vcurrent => some ⟨i.source_value, i.target_value⟩
    | Verb.vnew => none

/-- Spec wording of "done": source and target both blank, or target
non-empty and (verb is `CURRENT` or the chunk was edited). -/
def chunkDone (i : SectionItem) : Bool :=
  (i.source_value = "" && i.target_value = "") ||
    (i.target_value ≠ "" && (i.verb = Verb.vcurrent || i.changed))

/-- Spec wording of "in-progress" (stale but filled): verb `CHANGED`,
not edited, target non-empty. -/
def chunkInProgress (i : SectionItem) : Bool :=
  i.verb = Verb.vchanged && !i.changed && i.target_value ≠ ""

/-- A chunk that is either done or in-progress. -/
def chunkTouched (i : SectionItem) : Bool :=
  chunkDone i || chunkInProgress i

/-- Spec wording of the derived progress value: `DONE` if every chunk is
done, `IN_PROGRESS` if some chunk is done or in-progress, `NOT_STARTED`
otherwise. -/
def specProgress (sections : List Section) : Nat :=
  if sections.all (fun s => s.data.all chunkDone) then DONE
  else if sections.any (fun s => s.data.any chunkTouched) then IN_PROGRESS
  else NOT_STARTED

/-! ### Dictionary lemmas -/

lemma dictGet_dictSet_self {α : Type} (l : List (String × α)) (k : String)
    (v : α) : dictGet (dictSet l k v) k = some v := by
  induction l with
  | nil => simp [dictGet, dictSet]
  | cons p rest ih =>
      by_cases h : p.1 = k <;> simp [dictGet, dictSet, h, ih]

lemma dictGet_dictSet_ne {α : Type} (l : List (String × α)) (k k' : String)
    (v : α) (h : k' ≠ k) : dictGet (dictSet l k v) k' = dictGet l k' := by
  induction l with
  | nil => simp [dictGet, dictSet, Ne.symm h]
  | cons p rest ih =>
      by_cases hp : p.1 = k
      · simp [dictGet, dictSet, hp, Ne.symm h]
      · by_cases hp' : p.1 = k'
        · simp [dictGet, dictSet, hp, hp', h]
        · simp [dictGet, dictSet, hp, hp', ih]

lemma dictSet_dictSet_self {α : Type} (l : List (String × α)) (k : String)
    (v : α) : dictSet (dictSet l k v) k v = dictSet l k v := by
  induction l with
  | nil => simp [dictSet]
  | cons p rest ih =>
      by_cases h : p.1 = k <;> simp [dictSet, h, ih]

/-! ### Characterization of the merge fold -/

lemma sectionMerge_foldl (items : List SectionItem) (c : Bool)
    (d : List ChunkRec) :
    items.foldl
      (fun acc item =>
        let changed := acc.1
        let data := acc.2
        if item.changed then
          (true, data ++ [⟨item.source_value, item.target_value⟩])
        else if item.verb = Verb.vchanged then
          (changed, data ++ [⟨item.old_source_value, item.target_value⟩])
        else if item.verb = Verb.vcurrent then
          (changed, data ++ [⟨item.source_value, item.target_value⟩])
        else
          (changed, data))
      (c, d) =
    (c || items.any (fun i => i.changed),
     d ++ items.filterMap chunkRule) := by
  induction items generalizing c d with
  | nil => simp
  | cons i rest ih =>
      cases hc : i.changed
      · cases hv : i.verb <;>
          simp [List.foldl_cons, hc, hv, ih, chunkRule, Bool.or_assoc]
      · simp [List.foldl_cons, hc, ih, chunkRule]

lemma sectionMerge_eq (items : List SectionItem) :
    sectionMerge items =
      (items.any (fun i => i.changed), items.filterMap chunkRule) := by
  simpa [sectionMerge] using sectionMerge_foldl items false []

/-- If no item of any section is edited, the merge leaves the bundle
dict untouched. -/
lemma applyMerge_no_edit (bundle : BundleDict) (sections : List Section)
    (h : ∀ t ∈ sections, ∀ i ∈ t.data, i.changed = false) :
    applyMerge bundle sections = bundle := by
  induction sections generalizing bundle with
  | nil => rfl
  | cons s rest ih =>
      have hs : s.data.any (fun i => i.changed) = false := by
        simp only [List.any_eq_false]
        intro i hi
        simpa using h s (by simp) i hi
      have : (sectionMerge s.data).1 = false := by
        rw [sectionMerge_eq]; exact hs
      simp only [applyMerge, List.foldl_cons, this, if_neg Bool.false_ne_true]
      exact ih bundle fun t ht i hi => h t (by simp [ht]) i hi

/-! ### Characterization of the progress fold -/

lemma progressStep_eq (acc : Bool × Bool) (i : SectionItem) :
    progressStep acc i = (acc.1 || chunkTouched i, acc.2 && chunkDone i) := by
  obtain ⟨ad, alld⟩ := acc
  cases hv : i.verb <;> cases hc : i.changed <;>
    by_cases hs : i.source_value = "" <;>
      by_cases ht : i.target_value = "" <;>
        simp [progressStep, chunkTouched, chunkDone, chunkInProgress,
          hv, hc, hs, ht]

lemma foldl_progressStep (items : List SectionItem) (ad alld : Bool) :
    items.foldl progressStep (ad, alld) =
      (ad || items.any chunkTouched, alld && items.all chunkDone) := by
  induction items generalizing ad alld with
  | nil => simp
  | cons i rest ih =>
      simp [List.foldl_cons, progressStep_eq, ih, Bool.or_assoc,
        Bool.and_assoc]

lemma progressFold_eq (sections : List Section) :
    progressFold sections =
      (sections.any (fun s => s.data.any chunkTouched),
       sections.all (fun s => s.data.all chunkDone)) := by
  have main : ∀ (l : List Section) (ad alld : Bool),
      l.foldl (fun acc s => s.data.foldl progressStep acc) (ad, alld) =
        (ad || l.any (fun s => s.data.any chunkTouched),
         alld && l.all (fun s => s.data.all chunkDone)) := by
    intro l
    induction l with
    | nil => simp
    | cons s rest ih =>
        intro ad alld
        simp [List.foldl_cons, foldl_progressStep, ih, Bool.or_assoc,
          Bool.and_assoc]
  simpa [progressFold] using main sections false true

lemma computeProgress_eq_spec (sections : List Section) :
    computeProgress sections = specProgress sections := by
  simp [computeProgress, specProgress, progressFold_eq]

/-! ### Claim theorems for the Updater -/

/-- Concrete section used to refute the unguarded merge rule: one
unedited `CURRENT` chunk. -/
def cexSection : Section :=
  { name := "title", label := "Title", type := "string", source_value := ""
    data := [⟨"Intro", "", "Introduction", Verb.vcurrent, false⟩] }

/-- C1 counterexample: a section whose single chunk is `CURRENT` and
unedited writes no field record at all — the stored record stays absent
even though the per-chunk rules build the non-empty list
`[{Intro, Introduction}]` and the chunk is not `NEW`. -/
theorem update_merge_unguarded_cex :
    dictGet (update_dtos_with_section_data "fr" [cexSection] []
      ⟨[]⟩).1 "title" = none ∧
    cexSection.data.filterMap chunkRule =
      [⟨"Intro", "Introduction"⟩] ∧
    cexSection.data.any (fun i => i.verb ≠ Verb.vnew) = true := by
  refine ⟨?_, by decide, by decide⟩
  decide

/-- C1 amended: the per-chunk merge rules are as stated, but a section's
record is (re)written only when at least one of its chunks is edited;
sections with no edited chunk write nothing, so editing is the only path
that changes a field's stored chunk set. -/
theorem update_merge_rule (locale : String) (bundle : BundleDict)
    (prog : I18nProgressDTO) (sections : List Section) (s : Section)
    (h : ∀ t ∈ sections, ∀ i ∈ t.data, i.changed = false) :
    (update_dtos_with_section_data locale sections bundle prog).1 = bundle ∧
    (sectionMerge s.data).2 = s.data.filterMap chunkRule ∧
    (update_dtos_with_section_data locale [s] bundle prog).1 =
      (if s.data.any (fun i => i.changed) then
        dictSet bundle s.name (mergedFieldRecord s)
      else bundle) := by
  refine ⟨applyMerge_no_edit bundle sections h, by simp [sectionMerge_eq], ?_⟩
  simp only [update_dtos_with_section_data, applyMerge, List.foldl_cons,
    List.foldl_nil, sectionMerge_eq]

/-- Edited section used in the C1 witness. -/
def editedSection : Section :=
  { name := "body", label := "Body", type := TYPE_HTML
    source_value := "<p>Hello</p>"
    data := [⟨"Hello", "", "Bonjour", Verb.vnew, true⟩] }

/-- Witness for the amended C1 merge-rule theorem at concrete inputs. -/
theorem update_merge_rule_witness :
    (update_dtos_with_section_data "fr" [cexSection] [] ⟨[]⟩).1 = [] ∧
    (sectionMerge editedSection.data).2 =
      editedSection.data.filterMap chunkRule ∧
    (update_dtos_with_section_data "fr" [editedSection] [] ⟨[]⟩).1 =
      (if editedSection.data.any (fun i => i.changed) then
        dictSet [] editedSection.name (mergedFieldRecord editedSection)
      else []) :=
  update_merge_rule "fr" [] ⟨[]⟩ [cexSection] editedSection (by decide)

/-- C2: the progress value written for the bundle's locale is a pure
function of the input sections, given by the spec's done/in-progress
rules, and it overwrites any prior value for that locale. -/
theorem update_progress_derivation (locale : String)
    (sections : List Section) (bundle : BundleDict)
    (prog : I18nProgressDTO) :
    ((update_dtos_with_section_data locale sections bundle
        prog).2).get_progress locale = specProgress sections := by
  simp [update_dtos_with_section_data, I18nProgressDTO.get_progress,
    I18nProgressDTO.set_progress, dictGet_dictSet_self,
    computeProgress_eq_spec]

/-- C9: updating with an empty section list writes progress `DONE`
(the all-done condition is vacuously true), not `NOT_STARTED`. -/
theorem update_empty_sections_done (locale : String) (bundle : BundleDict)
    (prog : I18nProgressDTO) :
    ((update_dtos_with_section_data locale [] bundle
        prog).2).get_progress locale = DONE ∧ DONE ≠ NOT_STARTED := by
  constructor
  · simp [update_dtos_with_section_data, I18nProgressDTO.get_progress,
      I18nProgressDTO.set_progress, dictGet_dictSet_self, computeProgress,
      progressFold, DONE]
  · decide

/-! ### The Section Builder
`TranslationConsoleRestHandler.build_sections_for_key`.  The schema
binding, the `xcontent` decomposer and the two alignment oracles are
external collaborators, passed in through `BuildOracles`. -/

/-- An `xcontent.SourceToTargetMapping` as constructed by the builder
from an existing bundle entry (the `label` argument is always `None`
there and is omitted). -/
structure SourceToTargetMapping where
  name : String
  type : String
  source_value : String
  target_value : String
deriving DecidableEq, Repr

/-- A per-field mapping as returned by
`xcontent.SourceToTargetDiffMapping.map_source_to_target`. -/
structure FieldMapping where
  name : String
  label : String
  type : String
  source_value : String
  target_value : String
  verb : Verb
deriving DecidableEq, Repr

/-- A per-chunk mapping as returned by
`xcontent.SourceToTargetDiffMapping.map_lists_source_to_target`:
for each current chunk, its source text, the matched old source text
(`target_value`), the verb, and optional indices into the current and
old lists. -/
structure DiffMapping where
  source_value : String
  target_value : String
  verb : Verb
  source_value_index : Option Nat
  target_value_index : Option Nat
deriving DecidableEq, Repr

/-- The external collaborators consumed by the Section Builder:
field-level diff mapping, html decomposition, chunk-list alignment, the
gettext translation store (`none` models the `AssertionError` raised
when no session context exists), and the course's default locale. -/
structure BuildOracles where
  map_fields : List SourceToTargetMapping → List FieldMapping
  decompose : String → List String
  map_lists : List String → List String → List DiffMapping
  translations : Option (String → String)
  default_locale : String

/-- The `existing_mappings` list built from the stored bundle dict
(Python indexes `value['data'][0]`, which presupposes the non-empty
chunk-list invariant; an empty list is read as a blank chunk here). -/
def existingMappings (bundle : BundleDict) : List SourceToTargetMapping :=
  bundle.map fun nv =>
    let name := nv.1
    let value := nv.2
    if value.type = TYPE_HTML then
      ⟨name, value.type, value.source_value.getD "", ""⟩
    else
      let c := value.data.getD 0 ⟨"", ""⟩
      ⟨name, value.type, c.source_value, c.target_value⟩

/-- Modelled from the spec: `xcontent.SourceToTargetMapping.find_mapping`
(not under src/) looks up an existing mapping by field name. -/
def findMapping (mappings : List SourceToTargetMapping) (name : String) :
    Option SourceToTargetMapping :=
  mappings.find? fun m => m.name = name

/-- The per-mapping body of the builder loop: the section's
`source_value` and `data` list for one field (html fields decompose and
align; atomic fields become a single chunk). -/
def buildSectionData (o : BuildOracles) (bundle : BundleDict)
    (existing : List SourceToTargetMapping) (mapping : FieldMapping) :
    String × List SectionItem :=
  if mapping.type = TYPE_HTML then
    let html_existing :=
      ((dictGet bundle mapping.name).map fun f => f.data).getD []
    let chunks := o.decompose mapping.source_value
    let html_mappings :=
      o.map_lists chunks (html_existing.map fun m => m.source_value)
    (mapping.source_value,
     html_mappings.map fun hm =>
       let target_value :=
         match hm.target_value_index with
         | some i => (html_existing.getD i ⟨"", ""⟩).target_value
         | none => ""
       ⟨hm.source_value, hm.target_value, target_value, hm.verb, false⟩)
  else
    let old_source_value :=
      if mapping.verb = Verb.vchanged then
        ((findMapping existing mapping.name).map
          fun m => m.source_value).getD ""
      else ""
    ("",
     [⟨mapping.source_value, old_source_value, mapping.target_value,
       mapping.verb, false⟩])

/-- The raw section list before translation-memory defaults: one section
per field mapping, dropping sections whose chunks are all
empty-source. -/
def rawSections (o : BuildOracles) (bundle : BundleDict) : List Section :=
  let existing := existingMappings bundle
  (o.map_fields existing).foldl
    (fun acc mapping =>
      let sd := buildSectionData o bundle existing mapping
      if sd.2.any (fun i => i.source_value ≠ "") then
        acc ++ [{ name := mapping.name, label := mapping.label
                  type := mapping.type, source_value := sd.1
                  data := sd.2 }]
      else acc)
    []

/-- The per-item body of `add_known_translations_as_defaults`: for a
`NEW` chunk with non-empty source, look the source text up in the
translation store and, if a different translation comes back, pre-fill
the target and re-tag the chunk `CHANGED`. -/
def defaultItem (gettext : String → String) (item : SectionItem) :
    SectionItem :=
  if item.verb = Verb.vnew then
    let source_value := item.source_value
    if source_value ≠ "" then
      let target_value := gettext source_value
      if target_value ≠ source_value then
        { item with target_value := target_value, verb := Verb.vchanged }
      else item
    else item
  else item

/-- `add_known_translations_as_defaults`: a `none` store (the
`AssertionError` path) returns the sections untouched. -/
def add_known_translations_as_defaults
    (translations : Option (String → String)) (sections : List Section) :
    List Section :=
  match translations with
  | none => sections
  | some gettext =>
      sections.map fun s => { s with data := s.data.map (defaultItem gettext) }

/-- `TranslationConsoleRestHandler.build_sections_for_key`: build the raw
sections, then apply translation-memory defaults when the target locale
differs from the course's default locale. -/
def build_sections_for_key (o : BuildOracles) (locale : String)
    (bundle : BundleDict) : List Section :=
  let sections := rawSections o bundle
  if locale ≠ o.default_locale then
    add_known_translations_as_defaults o.translations sections
  else sections

/-! ### The builder marks no chunk as edited -/

/-- No chunk of any of the given sections carries the edited flag. -/
def SectionsUnedited (sections : List Section) : Prop :=
  ∀ s ∈ sections, ∀ i ∈ s.data, i.changed = false

lemma buildSectionData_unedited (o : BuildOracles) (bundle : BundleDict)
    (existing : List SourceToTargetMapping) (mapping : FieldMapping) :
    ∀ i ∈ (buildSectionData o bundle existing mapping).2,
      i.changed = false := by
  intro i hi
  by_cases h : mapping.type = TYPE_HTML
  · simp only [buildSectionData, if_pos h, List.mem_map] at hi
    obtain ⟨hm, _, rfl⟩ := hi
    rfl
  · simp only [buildSectionData, if_neg h, List.mem_singleton] at hi
    subst hi
    rfl

lemma rawSections_unedited (o : BuildOracles) (bundle : BundleDict) :
    SectionsUnedited (rawSections o bundle) := by
  have main : ∀ (ms : List FieldMapping) (acc : List Section),
      SectionsUnedited acc →
      SectionsUnedited (ms.foldl
        (fun acc mapping =>
          let sd := buildSectionData o bundle (existingMappings bundle)
            mapping
          if sd.2.any (fun i => i.source_value ≠ "") then
            acc ++ [{ name := mapping.name, label := mapping.label
                      type := mapping.type, source_value := sd.1
                      data := sd.2 }]
          else acc)
        acc) := by
    intro ms
    induction ms with
    | nil => intro acc hacc; exact hacc
    | cons m rest ih =>
        intro acc hacc
        refine ih _ ?_
        intro s hs i hi
        simp only at hs
        by_cases hcond :
            ((buildSectionData o bundle (existingMappings bundle) m).2.any
              (fun i => i.source_value ≠ "")) = true
        · rw [if_pos hcond] at hs
          rcases List.mem_append.mp hs with hs' | hs'
          · exact hacc s hs' i hi
          · rcases List.mem_singleton.mp hs' with rfl
            exact buildSectionData_unedited o bundle _ m i hi
        · rw [if_neg hcond] at hs
          exact hacc s hs i hi
  exact main _ [] (by intro s hs; simp at hs)

lemma defaultItem_changed (gettext : String → String) (i : SectionItem) :
    (defaultItem gettext i).changed = i.changed := by
  simp only [defaultItem]
  split_ifs <;> rfl

lemma add_known_unedited (tr : Option (String → String))
    (sections : List Section) (h : SectionsUnedited sections) :
    SectionsUnedited (add_known_translations_as_defaults tr sections) := by
  cases tr with
  | none => exact h
  | some gettext =>
      intro s hs i hi
      simp only [add_known_translations_as_defaults, List.mem_map] at hs
      obtain ⟨t, ht, rfl⟩ := hs
      simp only [List.mem_map] at hi
      obtain ⟨j, hj, rfl⟩ := hi
      rw [defaultItem_changed]
      exact h t ht j hj

lemma build_sections_unedited (o : BuildOracles) (locale : String)
    (bundle : BundleDict) :
    SectionsUnedited (build_sections_for_key o locale bundle) := by
  unfold build_sections_for_key
  split
  · exact add_known_unedited _ _ (rawSections_unedited o bundle)
  · exact rawSections_unedited o bundle

/-! ### Claim theorems for the builder -/

/-- C3: reconciliation is idempotent.  Building sections and merging
them with no chunk edited leaves the bundle untouched, so a second
build-and-merge pass reproduces exactly the state after the first. -/
theorem reconcile_idempotent (o : BuildOracles) (locale : String)
    (bundle : BundleDict) (prog : I18nProgressDTO) :
    update_dtos_with_section_data locale
      (build_sections_for_key o locale
        (update_dtos_with_section_data locale
          (build_sections_for_key o locale bundle) bundle prog).1)
      (update_dtos_with_section_data locale
        (build_sections_for_key o locale bundle) bundle prog).1
      (update_dtos_with_section_data locale
        (build_sections_for_key o locale bundle) bundle prog).2 =
    update_dtos_with_section_data locale
      (build_sections_for_key o locale bundle) bundle prog := by
  have hA : applyMerge bundle (build_sections_for_key o locale bundle) =
      bundle :=
    applyMerge_no_edit bundle _ (build_sections_unedited o locale bundle)
  simp only [update_dtos_with_section_data, hA]
  simp [I18nProgressDTO.set_progress, dictSet_dictSet_self]

/-- C8: translation-memory defaults.  An unreachable store leaves every
section untouched and the build still succeeds; with a reachable store,
a `NEW` chunk with non-empty source whose lookup differs from the source
is pre-filled and re-tagged `CHANGED`, while a chunk whose lookup
returns its own source text is left exactly as it was. -/
theorem translation_memory_defaults (g : String → String)
    (item : SectionItem) (o : BuildOracles) (locale : String)
    (bundle : BundleDict) (sections : List Section)
    (hverb : item.verb = Verb.vnew) (hloc : locale ≠ o.default_locale)
    (hnone : o.translations = none) :
    add_known_translations_as_defaults none sections = sections ∧
    build_sections_for_key o locale bundle = rawSections o bundle ∧
    (item.source_value ≠ "" → g item.source_value ≠ item.source_value →
      defaultItem g item =
        { item with target_value := g item.source_value
                    verb := Verb.vchanged }) ∧
    (g item.source_value = item.source_value → defaultItem g item = item) ∧
    add_known_translations_as_defaults (some g)
        [{ name := "n", label := "l", type := "string", source_value := ""
           data := [item] }] =
      [{ name := "n", label := "l", type := "string", source_value := ""
         data := [defaultItem g item] }] := by
  refine ⟨rfl, ?_, ?_, ?_, rfl⟩
  · simp [build_sections_for_key, hloc, hnone,
      add_known_translations_as_defaults]
  · intro hsrc hne
    simp [defaultItem, hverb, hsrc, hne]
  · intro heq
    simp [defaultItem, hverb, heq]

/-- Witness for the translation-memory defaults theorem: the store map
sends "Hello" to "Bonjour" and "Same" to itself. -/
theorem translation_memory_defaults_witness :
    (⟨"Hello", "", "", Verb.vnew, false⟩ : SectionItem).verb = Verb.vnew ∧
    "fr" ≠ "en" ∧
    (add_known_translations_as_defaults none [] = ([] : List Section) ∧
     build_sections_for_key
        ⟨fun _ => [], fun _ => [], fun _ _ => [], none, "en"⟩ "fr" [] =
       rawSections ⟨fun _ => [], fun _ => [], fun _ _ => [], none, "en"⟩ [] ∧
     ((⟨"Hello", "", "", Verb.vnew, false⟩ : SectionItem).source_value ≠ "" →
      (fun s => if s = "Hello" then "Bonjour" else s) "Hello" ≠ "Hello" →
      defaultItem (fun s => if s = "Hello" then "Bonjour" else s)
          ⟨"Hello", "", "", Verb.vnew, false⟩ =
        { (⟨"Hello", "", "", Verb.vnew, false⟩ : SectionItem) with
            target_value :=
              (fun s => if s = "Hello" then "Bonjour" else s) "Hello"
            verb := Verb.vchanged }) ∧
     ((fun s => if s = "Hello" then "Bonjour" else s) "Hello" = "Hello" →
      defaultItem (fun s => if s = "Hello" then "Bonjour" else s)
          ⟨"Hello", "", "", Verb.vnew, false⟩ =
        ⟨"Hello", "", "", Verb.vnew, false⟩) ∧
     add_known_translations_as_defaults
        (some (fun s => if s = "Hello" then "Bonjour" else s))
        [{ name := "n", label := "l", type := "string", source_value := ""
           data := [⟨"Hello", "", "", Verb.vnew, false⟩] }] =
      [{ name := "n", label := "l", type := "string", source_value := ""
         data := [defaultItem (fun s => if s = "Hello" then "Bonjour" else s)
           ⟨"Hello", "", "", Verb.vnew, false⟩] }]) :=
  ⟨by decide, by decide,
   translation_memory_defaults (fun s => if s = "Hello" then "Bonjour" else s)
     ⟨"Hello", "", "", Verb.vnew, false⟩
     ⟨fun _ => [], fun _ => [], fun _ _ => [], none, "en"⟩ "fr" [] []
     (by decide) (by decide) rfl⟩

/-! ### `ResourceBundleKey` and its string encoding -/

/-- A resource bundle key `(type, key, locale)`. -/
structure ResourceBundleKey where
  type : String
  key : String
  locale : String
deriving DecidableEq, Repr

/-- `ResourceBundleKey.__str__`: the canonical form
`'%s:%s:%s' % (type, key, locale)`. -/
def ResourceBundleKey.toStr (k : ResourceBundleKey) : String :=
  k.type ++ ":" ++ k.key ++ ":" ++ k.locale

/-- Split a character list at the first occurrence of `sep`, returning
the parts before and after it (`none` when `sep` does not occur).
Python's `split(sep, n)` takes the leftmost separators first; two nested
applications model `split(':', 2)` unpacked into exactly three names. -/
def splitFirst (sep : Char) : List Char → Option (List Char × List Char)
  | [] => none
  | c :: rest =>
      if c = sep then some ([], rest)
      else
        match splitFirst sep rest with
        | none => none
        | some (a, b) => some (c :: a, b)

/-- `ResourceBundleKey.fromstring`: `key_str.split(':', 2)` unpacked into
`(type, key, locale)`; fewer than two colons raise (modelled as
`none`). -/
def ResourceBundleKey.fromstring (s : String) : Option ResourceBundleKey :=
  match splitFirst ':' s.data with
  | none => none
  | some (t, rest) =>
      match splitFirst ':' rest with
      | none => none
      | some (k, l) => some ⟨String.mk t, String.mk k, String.mk l⟩

lemma splitFirst_append (sep : Char) (a b : List Char) (h : sep ∉ a) :
    splitFirst sep (a ++ sep :: b) = some (a, b) := by
  induction a with
  | nil => simp [splitFirst]
  | cons c rest ih =>
      have hc : c ≠ sep := fun hc => h (hc ▸ List.mem_cons_self c rest)
      have hrest : sep ∉ rest := fun hr => h (List.mem_cons_of_mem c hr)
      simp [splitFirst, hc, ih hrest]

lemma toStr_data (k : ResourceBundleKey) :
    k.toStr.data = k.type.data ++ ':' :: (k.key.data ++ ':' :: k.locale.data)
    := by
  simp [ResourceBundleKey.toStr, String.data_append]

lemma fromstring_toStr (k : ResourceBundleKey) (ht : ':' ∉ k.type.data)
    (hk : ':' ∉ k.key.data) :
    ResourceBundleKey.fromstring k.toStr = some k := by
  simp only [ResourceBundleKey.fromstring, toStr_data,
    splitFirst_append ':' k.type.data _ ht,
    splitFirst_append ':' k.key.data _ hk]

/-- C5 counterexample: a key component containing `':'` does not
round-trip — `split(':', 2)` splits from the left, so the extra colon
lands in the locale.  Two distinct bundle keys share the canonical
string `"t:a:b:fr"`. -/
theorem bundle_key_roundtrip_cex :
    ResourceBundleKey.fromstring
        (ResourceBundleKey.toStr ⟨"t", "a:b", "fr"⟩) =
      some ⟨"t", "a", "b:fr"⟩ ∧
    (⟨"t", "a", "b:fr"⟩ : ResourceBundleKey) ≠ ⟨"t", "a:b", "fr"⟩ ∧
    ResourceBundleKey.toStr ⟨"t", "a", "b:fr"⟩ =
      ResourceBundleKey.toStr ⟨"t", "a:b", "fr"⟩ := by
  refine ⟨by decide, by decide, by decide⟩

/-- C5 amended: the round-trip and the equal-iff-strings-equal law hold
for keys whose `type` and `key` components contain no `':'` (the locale
may contain one). -/
theorem bundle_key_roundtrip (t k l t' k' l' : String)
    (h1 : ':' ∉ t.data) (h2 : ':' ∉ k.data) (h3 : ':' ∉ t'.data)
    (h4 : ':' ∉ k'.data) :
    ResourceBundleKey.fromstring (ResourceBundleKey.toStr ⟨t, k, l⟩) =
      some ⟨t, k, l⟩ ∧
    (ResourceBundleKey.toStr ⟨t, k, l⟩ =
        ResourceBundleKey.toStr ⟨t', k', l'⟩ ↔
      (⟨t, k, l⟩ : ResourceBundleKey) = ⟨t', k', l'⟩) := by
  refine ⟨fromstring_toStr _ h1 h2, ?_, fun h => h ▸ rfl⟩
  intro hstr
  have h5 := fromstring_toStr ⟨t, k, l⟩ h1 h2
  have h6 := fromstring_toStr ⟨t', k', l'⟩ h3 h4
  rw [hstr] at h5
  rw [h6] at h5
  exact (Option.some.injEq _ _ ▸ h5).symm ▸ rfl

/-- Witness for the amended bundle-key round-trip theorem. -/
theorem bundle_key_roundtrip_witness :
    ':' ∉ ("unit").data ∧ ':' ∉ ("lesson/4").data ∧
    (ResourceBundleKey.fromstring
        (ResourceBundleKey.toStr ⟨"unit", "lesson/4", "el"⟩) =
      some ⟨"unit", "lesson/4", "el"⟩ ∧
    (ResourceBundleKey.toStr ⟨"unit", "lesson/4", "el"⟩ =
        ResourceBundleKey.toStr ⟨"unit", "lesson/4", "ru"⟩ ↔
      (⟨"unit", "lesson/4", "el"⟩ : ResourceBundleKey) =
        ⟨"unit", "lesson/4", "ru"⟩)) :=
  ⟨by decide, by decide,
   bundle_key_roundtrip "unit" "lesson/4" "el" "unit" "lesson/4" "ru"
     (by decide) (by decide) (by decide) (by decide)⟩

/-! ### Applying uploaded translations
The inner per-chunk branch of
`TranslationUploadRestHandler.update_translations` (the
`if source_value not in translations / elif translations[source_value] /
else` chain). -/

/-- One chunk of one rebuilt section against the uploaded map for the
resource: a missing source records a message only; a non-empty uploaded
translation is applied as an edited substitution; an empty uploaded
translation is only counted as blank. -/
def applyUploadedItem (tmap : List (String × String)) (item : SectionItem) :
    SectionItem :=
  match dictGet tmap item.source_value with
  | none => item
  | some t =>
      if t ≠ "" then { item with target_value := t, changed := true }
      else item

/-- The per-resource import pipeline (build sections, substitute
uploaded translations, merge): lines of `update_translations` around the
call to `update_dtos_with_section_data`. -/
def updateResourceTranslations (o : BuildOracles) (locale : String)
    (tmap : List (String × String)) (bundle : BundleDict)
    (prog : I18nProgressDTO) : BundleDict × I18nProgressDTO :=
  let sections := build_sections_for_key o locale bundle
  let sections' :=
    sections.map fun s => { s with data := s.data.map (applyUploadedItem tmap) }
  update_dtos_with_section_data locale sections' bundle prog

/-- Build oracle used in the C4 counterexample: one atomic field whose
current source "Intro" is `CURRENT` against the stored bundle. -/
def cexUploadOracles : BuildOracles :=
  { map_fields := fun _ =>
      [⟨"title", "Title", "string", "Intro", "Einführung", Verb.vcurrent⟩]
    decompose := fun _ => []
    map_lists := fun _ _ => []
    translations := none
    default_locale := "en" }

/-- Stored bundle used in the C4 counterexample. -/
def cexUploadBundle : BundleDict :=
  [("title", ⟨"string", none, [⟨"Intro", "Einführung"⟩]⟩)]

/-- C4 counterexample: an explicit blank uploaded translation for
"Intro" is not applied — the chunk is left unedited and the stored
target "Einführung" survives the merge unchanged. -/
theorem upload_blank_not_applied_cex :
    applyUploadedItem [("Intro", "")]
        ⟨"Intro", "", "Einführung", Verb.vcurrent, false⟩ =
      ⟨"Intro", "", "Einführung", Verb.vcurrent, false⟩ ∧
    applyUploadedItem [("Intro", "")]
        ⟨"Intro", "", "Einführung", Verb.vcurrent, false⟩ ≠
      ⟨"Intro", "", "", Verb.vcurrent, true⟩ ∧
    (updateResourceTranslations cexUploadOracles "de" [("Intro", "")]
        cexUploadBundle ⟨[]⟩).1 = cexUploadBundle := by
  refine ⟨by decide, by decide, by decide⟩

/-- C4 amended: a matched chunk is applied as an `edited=true`
substitution only when the uploaded translation is non-empty; an
explicit blank match leaves the chunk (and hence the stored target)
untouched, being counted as an untranslated item instead. -/
theorem upload_translation_applied (tmap : List (String × String))
    (item : SectionItem) (t : String)
    (h : dictGet tmap item.source_value = some t) :
    (t ≠ "" →
      applyUploadedItem tmap item =
        { item with target_value := t, changed := true }) ∧
    (t = "" → applyUploadedItem tmap item = item) := by
  constructor
  · intro ht
    simp [applyUploadedItem, h, ht]
  · intro ht
    simp [applyUploadedItem, h, ht]

/-- Witness for the amended upload-application theorem. -/
theorem upload_translation_applied_witness :
    dictGet [("Hello", "Bonjour")]
        (⟨"Hello", "", "", Verb.vnew, false⟩ : SectionItem).source_value =
      some "Bonjour" ∧
    ((("Bonjour" : String) ≠ "" →
      applyUploadedItem [("Hello", "Bonjour")]
          ⟨"Hello", "", "", Verb.vnew, false⟩ =
        { (⟨"Hello", "", "", Verb.vnew, false⟩ : SectionItem) with
            target_value := "Bonjour", changed := true }) ∧
     (("Bonjour" : String) = "" →
      applyUploadedItem [("Hello", "Bonjour")]
          ⟨"Hello", "", "", Verb.vnew, false⟩ =
        ⟨"Hello", "", "", Verb.vnew, false⟩)) :=
  ⟨by decide,
   upload_translation_applied [("Hello", "Bonjour")]
     ⟨"Hello", "", "", Verb.vnew, false⟩ "Bonjour" (by decide)⟩

/-! ### The Lazy Recomposer (`LazyTranslator`) -/

/-- `LazyTranslator.NOT_STARTED_TRANSLATION`. -/
def NOT_STARTED_TRANSLATION : Nat := 0

/-- `LazyTranslator.VALID_TRANSLATION`. -/
def VALID_TRANSLATION : Nat := 1

/-- `LazyTranslator.INVALID_TRANSLATION`. -/
def INVALID_TRANSLATION : Nat := 2

/-- External collaborators of the translator: the `xcontent`
decomposer, the chunk-list alignment oracle, and the
decompose-recompose-serialize pipeline (source value and substituted
chunk values in, rendered body and structural error list out); each may
raise (`Except.error`).  `allowed`/`render_error` model the diagnostics
annotation for authorized viewers. -/
structure TransOracles where
  decompose : String → Except String (List String)
  map_lists : List String → List String → Except String (List DiffMapping)
  recompose : String → List String → Except String (String × List String)
  allowed : Bool
  render_error : String → String → String

/-- `LazyTranslator._detailed_error`: wrap the body with the error
annotation only for authorized viewers. -/
def detailed_error (o : TransOracles) (msg body : String) : String :=
  if o.allowed then o.render_error msg body else body

/-- `LazyTranslator._fallback`: recompose the stored source structure
with all stored target values; on any failure (including a `None`
stored source) return the supplied default body. -/
def fallbackBody (o : TransOracles) (td : FieldRecord)
    (default_body : String) : String :=
  match td.source_value with
  | none => default_body
  | some sv =>
      match o.recompose sv (td.data.map fun item => item.target_value) with
      | Except.ok (body, _) => body
      | Except.error _ => default_body

/-- Substituting one aligned chunk: a `CURRENT` chunk takes the stored
target at the oracle-provided index, a `CHANGED`/`NEW` chunk counts as a
miss and takes the current source chunk itself; a missing or
out-of-range index raises (as Python's `list[None]`/`list[i]` would). -/
def substituteChunk (chunks : List String) (data_list : List ChunkRec)
    (m : DiffMapping) : Except String (Bool × String) :=
  match m.verb with
  | Verb.vcurrent =>
      match m.target_value_index with
      | some i =>
          match data_list.get? i with
          | some d => Except.ok (false, d.target_value)
          | none => Except.error "IndexError"
      | none => Except.error "TypeError"
  | _ =>
      match m.source_value_index with
      | some i =>
          match chunks.get? i with
          | some c => Except.ok (true, c)
          | none => Except.error "IndexError"
      | none => Except.error "TypeError"

/-- The chunk-substitution loop of `_translate_html`: number of misses
accrued over `CHANGED`/`NEW` chunks together with the substituted
resource bundle, in input order. -/
def buildResourceBundle (chunks : List String) (data_list : List ChunkRec) :
    List DiffMapping → Except String (Nat × List String)
  | [] => Except.ok (0, [])
  | m :: rest => do
      let r ← substituteChunk chunks data_list m
      let acc ← buildResourceBundle chunks data_list rest
      pure ((if r.1 then 1 else 0) + acc.1, r.2 :: acc.2)

/-- The initial miss count of `_translate_html`: the excess of stored
chunks over current chunks. -/
def storedExcess (chunks : List String) (data_list : List ChunkRec) : Nat :=
  if chunks.length < data_list.length then
    data_list.length - chunks.length
  else 0

/-- The out-of-date error message of `_translate_html`. -/
def missMessage (n : Nat) : String :=
  let parts := if n = 1 then "part" else "parts"
  let are := if n = 1 then "is" else "are"
  "The content has changed and " ++ toString n ++ " " ++ parts ++
    " of the translation " ++ are ++ " out of date."

/-- `LazyTranslator._translate_html`, returning
`(status, errm, body)`.  The status starts `INVALID_TRANSLATION`; the
success path upgrades it to valid; every raised exception is caught and
routed through the fallback with the current source as default body. -/
def translate_html (o : TransOracles) (source_value : String)
    (td : FieldRecord) : Nat × String × String :=
  let run : Except String (Nat × String × String) := do
    let chunks ← o.decompose source_value
    let data_list := td.data
    let diff ← o.map_lists chunks (data_list.map fun d => d.source_value)
    let (m, resource_bundle) ← buildResourceBundle chunks data_list diff
    let count_misses := storedExcess chunks data_list + m
    let (body, errors) ← o.recompose source_value resource_bundle
    if count_misses = 0 ∧ errors = [] then
      pure (VALID_TRANSLATION, "", body)
    else
      let errm := missMessage count_misses
      pure (INVALID_TRANSLATION, errm,
        detailed_error o errm (fallbackBody o td body))
  match run with
  | Except.ok r => r
  | Except.error ex =>
      (INVALID_TRANSLATION, ex,
       detailed_error o ex (fallbackBody o td source_value))

/-- `LazyTranslator._translate_text`: status becomes valid and the
stored single target value is returned verbatim (Python indexes
`data[0]`, presupposing a non-empty chunk list, modelled by `head?`). -/
def translate_text (td : FieldRecord) : Option (Nat × String) :=
  td.data.head?.map fun c => (VALID_TRANSLATION, c.target_value)

/-- The blank-source test of `LazyTranslator.__str__`:
`source_value is None or not source_value.strip()`. -/
def isBlankSource : Option String → Bool
  | none => true
  | some s => s.trim = ""

/-- `LazyTranslator.__str__` on first resolution, returning
`(status, errm, body)`: blank source resolves to the empty string with
the status left `NOT_STARTED_TRANSLATION`; html fields go through
`_translate_html`; atomic fields through `_translate_text`. -/
def lazy_translator_str (o : TransOracles) (source_value : Option String)
    (td : FieldRecord) : Option (Nat × String × String) :=
  if isBlankSource source_value then
    some (NOT_STARTED_TRANSLATION, "", "")
  else if td.type = TYPE_HTML then
    some (translate_html o (source_value.getD "") td)
  else
    (translate_text td).map fun r => (r.1, "", r.2)

/-! ### Claim theorems for the translator -/

/-- C10: an atomic field with a non-blank current source always resolves
with status `VALID_TRANSLATION` to the stored single target value
verbatim (even when that value is empty); a `None` or whitespace-only
source resolves to the empty string with status `NOT_STARTED`. -/
theorem lazy_atomic_resolution (o : TransOracles) (sv : Option String)
    (td : FieldRecord) (c : ChunkRec) (hty : td.type ≠ TYPE_HTML)
    (hd : td.data.head? = some c) :
    lazy_translator_str o sv td =
      (if isBlankSource sv then some (NOT_STARTED_TRANSLATION, "", "")
       else some (VALID_TRANSLATION, "", c.target_value)) := by
  by_cases hb : isBlankSource sv
  · simp [lazy_translator_str, hb]
  · simp [lazy_translator_str, hb, hty, translate_text, hd]

/-- Witness for the atomic-resolution theorem: an empty stored target is
returned verbatim with status valid. -/
theorem lazy_atomic_resolution_witness :
    (⟨"string", none, [⟨"Intro", ""⟩]⟩ : FieldRecord).type ≠ TYPE_HTML ∧
    (⟨"string", none, [⟨"Intro", ""⟩]⟩ : FieldRecord).data.head? =
      some ⟨"Intro", ""⟩ ∧
    lazy_translator_str
        ⟨fun _ => Except.error "", fun _ _ => Except.error "",
         fun _ _ => Except.error "", false, fun _ b => b⟩
        (some "Intro") ⟨"string", none, [⟨"Intro", ""⟩]⟩ =
      (if isBlankSource (some "Intro") then
        some (NOT_STARTED_TRANSLATION, "", "")
       else some (VALID_TRANSLATION, "", (⟨"Intro", ""⟩ : ChunkRec).target_value)) :=
  ⟨by decide, by decide,
   lazy_atomic_resolution
     ⟨fun _ => Except.error "", fun _ _ => Except.error "",
      fun _ _ => Except.error "", false, fun _ b => b⟩
     (some "Intro") ⟨"string", none, [⟨"Intro", ""⟩]⟩ ⟨"Intro", ""⟩
     (by decide) (by decide)⟩

lemma substituteChunk_miss (chunks : List String)
    (data_list : List ChunkRec) (m : DiffMapping) (r : Bool × String)
    (h : substituteChunk chunks data_list m = Except.ok r) :
    r.1 = decide (m.verb ≠ Verb.vcurrent) := by
  cases hv : m.verb with
  | vcurrent =>
      simp only [substituteChunk, hv] at h
      cases hidx : m.target_value_index with
      | none => simp [hidx] at h
      | some i =>
          cases hget : data_list.get? i with
          | none =>
              simp only [hidx, hget] at h
              exact Except.noConfusion h
          | some d =>
              simp only [hidx, hget, Except.ok.injEq] at h
              simp [← h]
  | vnew =>
      simp only [substituteChunk, hv] at h
      cases hidx : m.source_value_index with
      | none => simp [hidx] at h
      | some i =>
          cases hget : chunks.get? i with
          | none =>
              simp only [hidx, hget] at h
              exact Except.noConfusion h
          | some c =>
              simp only [hidx, hget, Except.ok.injEq] at h
              simp [← h]
  | vchanged =>
      simp only [substituteChunk, hv] at h
      cases hidx : m.source_value_index with
      | none => simp [hidx] at h
      | some i =>
          cases hget : chunks.get? i with
          | none =>
              simp only [hidx, hget] at h
              exact Except.noConfusion h
          | some c =>
              simp only [hidx, hget, Except.ok.injEq] at h
              simp [← h]

lemma buildResourceBundle_count (chunks : List String)
    (data_list : List ChunkRec) (ms : List DiffMapping) (nm : Nat)
    (rb : List String)
    (h : buildResourceBundle chunks data_list ms = Except.ok (nm, rb)) :
    nm = ms.countP fun dm => dm.verb ≠ Verb.vcurrent := by
  induction ms generalizing nm rb with
  | nil =>
      simp only [buildResourceBundle, Except.ok.injEq, Prod.mk.injEq] at h
      simp [← h.1]
  | cons m rest ih =>
      simp only [buildResourceBundle, bind, Except.bind] at h
      cases hs : substituteChunk chunks data_list m with
      | error e => rw [hs] at h; exact absurd h (by simp)
      | ok r =>
          rw [hs] at h
          cases hb : buildResourceBundle chunks data_list rest with
          | error e => rw [hb] at h; exact absurd h (by simp)
          | ok acc =>
              rw [hb] at h
              simp only [pure, Except.pure, Except.ok.injEq,
                Prod.mk.injEq] at h
              obtain ⟨acc1, acc2⟩ := acc
              have hcount := ih acc1 acc2 (by rw [hb])
              have hmiss := substituteChunk_miss chunks data_list m r hs
              rw [List.countP_cons, ← h.1, hcount, hmiss]
              by_cases hv : m.verb = Verb.vcurrent <;>
                simp [hv, Nat.add_comm]

/-- C7 counterexample oracles: the current source "src" decomposes to
one chunk aligned as `NEW`; recomposing the current structure yields the
empty body; recomposing the stored structure "old" fails. -/
def driftOracles : TransOracles :=
  { decompose := fun s =>
      if s = "src" then Except.ok ["a"] else Except.error "bad"
    map_lists := fun _ _ => Except.ok [⟨"a", "", Verb.vnew, some 0, none⟩]
    recompose := fun s _ =>
      if s = "src" then Except.ok ("", []) else Except.error "fail"
    allowed := false
    render_error := fun _ b => b }

/-- C7 counterexample field record: one stored chunk, stored source
"old". -/
def driftRecord : FieldRecord := ⟨"html", some "old", [⟨"b", "t"⟩]⟩

/-- C7 counterexample: with one `NEW` chunk (miss count 1) and a failing
stored-structure fallback, `_translate_html` reports the expected miss
message but returns the (empty) recomposition of the current structure,
which is neither non-empty nor the current untranslated source
"src". -/
theorem lazy_html_fallback_cex :
    translate_html driftOracles "src" driftRecord =
      (INVALID_TRANSLATION, missMessage 1, "") ∧
    ("" : String) ≠ "src" := by
  refine ⟨by decide, by decide⟩

/-- C7 amended: under structural drift the translator still never
raises: it reports status `INVALID_TRANSLATION` with a message counting
`CHANGED` plus `NEW` chunks plus the excess of stored over current
chunks, and returns as body the stored-structure recomposition when that
succeeds, otherwise the already-computed current-structure recomposition
(possibly empty) — the current untranslated source is the default only
when the main path itself raised. -/
theorem lazy_html_drift (o : TransOracles) (src : String)
    (td : FieldRecord) (chunks : List String) (diff : List DiffMapping)
    (nm : Nat) (rb : List String) (body : String) (errors : List String)
    (hdec : o.decompose src = Except.ok chunks)
    (hmap : o.map_lists chunks (td.data.map fun d => d.source_value) =
      Except.ok diff)
    (hbuild : buildResourceBundle chunks td.data diff = Except.ok (nm, rb))
    (hrec : o.recompose src rb = Except.ok (body, errors))
    (hdrift : 0 < storedExcess chunks td.data + nm) :
    nm = (diff.countP fun dm => dm.verb ≠ Verb.vcurrent) ∧
    translate_html o src td =
      (INVALID_TRANSLATION, missMessage (storedExcess chunks td.data + nm),
       detailed_error o (missMessage (storedExcess chunks td.data + nm))
         (fallbackBody o td body)) ∧
    (∀ ssv fb fberrs, td.source_value = some ssv →
      o.recompose ssv (td.data.map fun d => d.target_value) =
        Except.ok (fb, fberrs) →
      fallbackBody o td body = fb) ∧
    (∀ ssv e, td.source_value = some ssv →
      o.recompose ssv (td.data.map fun d => d.target_value) =
        Except.error e →
      fallbackBody o td body = body) ∧
    (∀ src' ex, o.decompose src' = Except.error ex →
      translate_html o src' td =
        (INVALID_TRANSLATION, ex,
         detailed_error o ex (fallbackBody o td src'))) := by
  have hne : ¬(storedExcess chunks td.data + nm = 0 ∧ errors = []) :=
    fun hc => by omega
  refine ⟨buildResourceBundle_count chunks td.data diff nm rb hbuild,
    ?_, ?_, ?_, ?_⟩
  · simp only [translate_html, bind, Except.bind, pure, Except.pure, hdec,
      hmap, hbuild, hrec, if_neg hne]
  · intro ssv fb fberrs hssv hfb
    simp [fallbackBody, hssv, hfb]
  · intro ssv e hssv hfb
    simp [fallbackBody, hssv, hfb]
  · intro src' ex hdec'
    simp only [translate_html, bind, Except.bind, pure, Except.pure, hdec']

/-- Witness for the amended drift theorem at the counterexample
oracles. -/
theorem lazy_html_drift_witness :
    driftOracles.decompose "src" = Except.ok ["a"] ∧
    driftOracles.map_lists ["a"]
        (driftRecord.data.map fun d => d.source_value) =
      Except.ok [⟨"a", "", Verb.vnew, some 0, none⟩] ∧
    buildResourceBundle ["a"] driftRecord.data
        [⟨"a", "", Verb.vnew, some 0, none⟩] = Except.ok (1, ["a"]) ∧
    driftOracles.recompose "src" ["a"] = Except.ok ("", []) ∧
    0 < storedExcess ["a"] driftRecord.data + 1 ∧
    (1 = ([(⟨"a", "", Verb.vnew, some 0, none⟩ : DiffMapping)].countP
        fun dm => dm.verb ≠ Verb.vcurrent) ∧
     translate_html driftOracles "src" driftRecord =
      (INVALID_TRANSLATION,
       missMessage (storedExcess ["a"] driftRecord.data + 1),
       detailed_error driftOracles
         (missMessage (storedExcess ["a"] driftRecord.data + 1))
         (fallbackBody driftOracles driftRecord "")) ∧
     (∀ ssv fb fberrs, driftRecord.source_value = some ssv →
       driftOracles.recompose ssv
           (driftRecord.data.map fun d => d.target_value) =
         Except.ok (fb, fberrs) →
       fallbackBody driftOracles driftRecord "" = fb) ∧
     (∀ ssv e, driftRecord.source_value = some ssv →
       driftOracles.recompose ssv
           (driftRecord.data.map fun d => d.target_value) =
         Except.error e →
       fallbackBody driftOracles driftRecord "" = "") ∧
     (∀ src' ex, driftOracles.decompose src' = Except.error ex →
       translate_html driftOracles src' driftRecord =
         (INVALID_TRANSLATION, ex,
          detailed_error driftOracles ex
            (fallbackBody driftOracles driftRecord src')))) :=
  ⟨rfl, rfl, rfl, rfl, by decide,
   lazy_html_drift driftOracles "src" driftRecord ["a"]
     [⟨"a", "", Verb.vnew, some 0, none⟩] 1 ["a"] "" []
     rfl rfl rfl rfl (by decide)⟩

/-! ### Catalog upload parsing
`TranslationUploadRestHandler.parse_po_file` and the surrounding `post`
flow. -/

/-- One translation unit of an uploaded catalog file: `msgid`,
`msgstr`, and the raw location strings. -/
structure POMessage where
  id : String
  str : String
  locations : List String
deriving DecidableEq, Repr

/-- The two kinds of exception escaping the parse:
`ProtocolError` (caught by `post`) and `ValueError` from tuple
unpacking or key splitting (not caught). -/
inductive UploadErr where
  | protocolError (msg : String)
  | valueError
deriving DecidableEq, Repr

/-- `protocol, _, _, key = location.split('|', 4)`: succeeds exactly
when the location has three `'|'` separators, yielding the protocol tag
and the bundle-key string; anything else raises `ValueError`
(`none`). -/
def parseLocation (s : String) : Option (String × String) :=
  match splitFirst '|' s.data with
  | none => none
  | some (p, r1) =>
      match splitFirst '|' r1 with
      | none => none
      | some (_, r2) =>
          match splitFirst '|' r2 with
          | none => none
          | some (_, r3) =>
              if '|' ∈ r3 then none
              else some (String.mk p, String.mk r3)

/-- The locale referenced by a location string
(`ResourceBundleKey.fromstring(key).locale`). -/
def locLocale (loc : String) : Option String :=
  (parseLocation loc).bind fun pk =>
    (ResourceBundleKey.fromstring pk.2).map fun bk => bk.locale

/-- A location that parses structurally: `split('|', 4)` unpacks and the
bundle key splits into three components. -/
def locParses (loc : String) : Bool :=
  match parseLocation loc with
  | none => false
  | some (_, k) => (ResourceBundleKey.fromstring k).isSome

/-- A location carrying a protocol tag other than `GCB-1`. -/
def locBadProtocol (loc : String) : Bool :=
  match parseLocation loc with
  | none => false
  | some (p, _) => p ≠ "GCB-1"

/-- The nested upload dictionary:
locale → bundle key → msgid → msgstr. -/
abbrev TransDict := List (String × List (String × List (String × String)))

/-- `translations[locale][key][message.id] = message.string` over the
defaultdict nesting. -/
def transInsert (tm : TransDict) (locale key msgid msgstr : String) :
    TransDict :=
  let byKey := (dictGet tm locale).getD []
  let byId := (dictGet byKey key).getD []
  dictSet tm locale (dictSet byKey key (dictSet byId msgid msgstr))

/-- The inner location loop of `parse_po_file` for one message: check
the protocol tag, extract the location's locale, enforce the
single-locale invariant against the loop-carried `locale`, and record
the translation. -/
def parseLocations (msgid msgstr : String) :
    List String → Option String → TransDict →
    Except UploadErr (Option String × TransDict)
  | [], locale, tm => Except.ok (locale, tm)
  | loc :: rest, locale, tm =>
      match parseLocation loc with
      | none => Except.error UploadErr.valueError
      | some (protocol, key) =>
          if protocol ≠ "GCB-1" then
            Except.error (UploadErr.protocolError
              ("Expected location format GCB-1, but had " ++ protocol))
          else
            match ResourceBundleKey.fromstring key with
            | none => Except.error UploadErr.valueError
            | some bk =>
                match locale with
                | none =>
                    parseLocations msgid msgstr rest (some bk.locale)
                      (transInsert tm bk.locale key msgid msgstr)
                | some l =>
                    if l ≠ bk.locale then
                      Except.error (UploadErr.protocolError
                        ("File has translations for both \"" ++ l ++
                         "\" and \"" ++ bk.locale ++ "\""))
                    else
                      parseLocations msgid msgstr rest (some l)
                        (transInsert tm l key msgid msgstr)

/-- `TranslationUploadRestHandler.parse_po_file`: fold the location
loop over every message of one catalog file, the file-local `locale`
starting at `None`. -/
def parse_po_file :
    List POMessage → Option String → TransDict →
    Except UploadErr (Option String × TransDict)
  | [], locale, tm => Except.ok (locale, tm)
  | msg :: rest, locale, tm =>
      match parseLocations msg.id msg.str msg.locations locale tm with
      | Except.error e => Except.error e
      | Except.ok (locale', tm') => parse_po_file rest locale' tm'

/-- Parsing every `.po` file of the upload into one shared translations
dict, each file starting with a fresh `locale = None`. -/
def parseAll : List (List POMessage) → TransDict → Except UploadErr TransDict
  | [], tm => Except.ok tm
  | f :: rest, tm =>
      match parse_po_file f none tm with
      | Except.error e => Except.error e
      | Except.ok (_, tm') => parseAll rest tm'

/-- The tail of `TranslationUploadRestHandler.post` after the upload
content is read: parse all files (a `ProtocolError` yields a 400
response with no state change, a `ValueError` propagates), reject empty
uploads, check per-locale rights (401), then run `update_translations`
(the state transformer `updateFn`) and answer 200. -/
def postUpload {σ : Type} (updateFn : TransDict → σ → σ × List String)
    (hasRights : String → Bool) (files : List (List POMessage)) (st : σ) :
    Except Unit (Nat × σ) :=
  match parseAll files [] with
  | Except.error (UploadErr.protocolError _) => Except.ok (400, st)
  | Except.error UploadErr.valueError => Except.error ()
  | Except.ok tm =>
      if tm = [] then Except.ok (400, st)
      else if tm.any (fun p => ¬hasRights p.1) then Except.ok (401, st)
      else Except.ok (200, (updateFn tm st).1)

lemma locParses_some (loc : String) (h : locParses loc = true) :
    ∃ ll, locLocale loc = some ll := by
  unfold locParses at h
  cases hp : parseLocation loc with
  | none => simp only [hp] at h; simp at h
  | some pk =>
      obtain ⟨p0, k0⟩ := pk
      simp only [hp] at h
      cases hk : ResourceBundleKey.fromstring k0 with
      | none => simp only [hk, Option.isSome_none] at h; simp at h
      | some bk => exact ⟨bk.locale, by simp [locLocale, hp, hk]⟩

lemma parseLocations_ok_protocol (msgid msgstr : String) :
    ∀ (locs : List String) (locale : Option String) (tm : TransDict) r,
    parseLocations msgid msgstr locs locale tm = Except.ok r →
    ∀ loc ∈ locs, locBadProtocol loc = false := by
  intro locs
  induction locs with
  | nil => intro locale tm r h loc hloc; simp at hloc
  | cons loc0 rest ih =>
      intro locale tm r h loc hloc
      cases hploc : parseLocation loc0 with
      | none => simp [parseLocations, hploc] at h
      | some pk =>
          obtain ⟨p, key⟩ := pk
          by_cases hp : p = "GCB-1"
          · cases hk : ResourceBundleKey.fromstring key with
            | none => simp [parseLocations, hploc, hp, hk] at h
            | some bk =>
                rcases List.mem_cons.mp hloc with rfl | hmem
                · simp [locBadProtocol, hploc, hp]
                · cases locale with
                  | none =>
                      simp only [parseLocations, hploc, hk,
                        if_neg (show ¬(p ≠ "GCB-1") by simp [hp])] at h
                      exact ih _ _ _ h loc hmem
                  | some l =>
                      by_cases hl : l = bk.locale
                      · simp only [parseLocations, hploc, hk,
                          if_neg (show ¬(p ≠ "GCB-1") by simp [hp]),
                          if_neg (show ¬(l ≠ bk.locale) by simp [hl])] at h
                        exact ih _ _ _ h loc hmem
                      · simp [parseLocations, hploc, hp, hk, hl] at h
          · simp [parseLocations, hploc, hp] at h

lemma parseLocations_ok_locale (msgid msgstr : String) :
    ∀ (locs : List String) (locale : Option String) (tm : TransDict) r,
    parseLocations msgid msgstr locs locale tm = Except.ok r →
    (∀ l, locale = some l → r.1 = some l) ∧
    (∀ loc ∈ locs, ∀ ll, locLocale loc = some ll → r.1 = some ll) := by
  intro locs
  induction locs with
  | nil =>
      intro locale tm r h
      simp only [parseLocations, Except.ok.injEq] at h
      constructor
      · intro l hl; rw [← h, hl]
      · intro loc hloc; simp at hloc
  | cons loc0 rest ih =>
      intro locale tm r h
      cases hploc : parseLocation loc0 with
      | none => simp [parseLocations, hploc] at h
      | some pk =>
          obtain ⟨p, key⟩ := pk
          by_cases hp : p = "GCB-1"
          · cases hk : ResourceBundleKey.fromstring key with
            | none => simp [parseLocations, hploc, hp, hk] at h
            | some bk =>
                have hll0 : locLocale loc0 = some bk.locale := by
                  simp [locLocale, hploc, hk]
                cases locale with
                | none =>
                    simp only [parseLocations, hploc, hk,
                      if_neg (show ¬(p ≠ "GCB-1") by simp [hp])] at h
                    have hrec := ih (some bk.locale) _ r h
                    refine ⟨by simp, ?_⟩
                    intro loc hloc ll hll
                    rcases List.mem_cons.mp hloc with rfl | hmem
                    · rw [hll0] at hll
                      exact hrec.1 ll hll
                    · exact hrec.2 loc hmem ll hll
                | some l =>
                    by_cases hl : l = bk.locale
                    · simp only [parseLocations, hploc, hk,
                        if_neg (show ¬(p ≠ "GCB-1") by simp [hp]),
                        if_neg (show ¬(l ≠ bk.locale) by simp [hl])] at h
                      have hrec := ih (some l) _ r h
                      refine ⟨?_, ?_⟩
                      · intro l' hl'
                        exact hrec.1 l' (by
                          rw [Option.some.inj hl'])
                      · intro loc hloc ll hll
                        rcases List.mem_cons.mp hloc with rfl | hmem
                        · rw [hll0] at hll
                          exact hrec.1 ll (by rw [hl]; exact hll)
                        · exact hrec.2 loc hmem ll hll
                    · simp [parseLocations, hploc, hp, hk, hl] at h
          · simp [parseLocations, hploc, hp] at h

lemma parseLocations_wf (msgid msgstr : String) :
    ∀ (locs : List String) (locale : Option String) (tm : TransDict),
    (∀ loc ∈ locs, locParses loc = true) →
    parseLocations msgid msgstr locs locale tm ≠
      Except.error UploadErr.valueError := by
  intro locs
  induction locs with
  | nil => intro locale tm _ h; simp [parseLocations] at h
  | cons loc0 rest ih =>
      intro locale tm hwf h
      have hwf0 : locParses loc0 = true := hwf loc0 (by simp)
      cases hploc : parseLocation loc0 with
      | none => simp [locParses, hploc] at hwf0
      | some pk =>
          obtain ⟨p, key⟩ := pk
          by_cases hp : p = "GCB-1"
          · cases hk : ResourceBundleKey.fromstring key with
            | none => simp [locParses, hploc, hk] at hwf0
            | some bk =>
                have hwfr : ∀ loc ∈ rest, locParses loc = true :=
                  fun loc hloc => hwf loc (by simp [hloc])
                cases locale with
                | none =>
                    simp only [parseLocations, hploc, hk,
                      if_neg (show ¬(p ≠ "GCB-1") by simp [hp])] at h
                    exact ih _ _ hwfr h
                | some l =>
                    by_cases hl : l = bk.locale
                    · simp only [parseLocations, hploc, hk,
                        if_neg (show ¬(p ≠ "GCB-1") by simp [hp]),
                        if_neg (show ¬(l ≠ bk.locale) by simp [hl])] at h
                      exact ih _ _ hwfr h
                    · simp [parseLocations, hploc, hp, hk, hl] at h
          · simp [parseLocations, hploc, hp] at h

lemma parse_po_file_ok_protocol :
    ∀ (msgs : List POMessage) (locale : Option String) (tm : TransDict) r,
    parse_po_file msgs locale tm = Except.ok r →
    ∀ m ∈ msgs, ∀ loc ∈ m.locations, locBadProtocol loc = false := by
  intro msgs
  induction msgs with
  | nil => intro locale tm r h m hm; simp at hm
  | cons msg rest ih =>
      intro locale tm r h m hm loc hloc
      simp only [parse_po_file] at h
      cases hpl : parseLocations msg.id msg.str msg.locations locale tm with
      | error e => simp only [hpl] at h; exact absurd h (by simp)
      | ok r' =>
          obtain ⟨locale', tm'⟩ := r'
          simp only [hpl] at h
          rcases List.mem_cons.mp hm with rfl | hmem
          · exact parseLocations_ok_protocol m.id m.str m.locations
              locale tm _ hpl loc hloc
          · exact ih _ _ _ h m hmem loc hloc

lemma parse_po_file_ok_locale :
    ∀ (msgs : List POMessage) (locale : Option String) (tm : TransDict) r,
    parse_po_file msgs locale tm = Except.ok r →
    (∀ l, locale = some l → r.1 = some l) ∧
    (∀ m ∈ msgs, ∀ loc ∈ m.locations, ∀ ll,
      locLocale loc = some ll → r.1 = some ll) := by
  intro msgs
  induction msgs with
  | nil =>
      intro locale tm r h
      simp only [parse_po_file, Except.ok.injEq] at h
      refine ⟨fun l hl => by rw [← h, hl], ?_⟩
      intro m hm; simp at hm
  | cons msg rest ih =>
      intro locale tm r h
      simp only [parse_po_file] at h
      cases hpl : parseLocations msg.id msg.str msg.locations locale tm with
      | error e => simp only [hpl] at h; exact absurd h (by simp)
      | ok r' =>
          obtain ⟨locale', tm'⟩ := r'
          simp only [hpl] at h
          have hhead := parseLocations_ok_locale msg.id msg.str
            msg.locations locale tm _ hpl
          have hrec := ih locale' tm' r h
          refine ⟨?_, ?_⟩
          · intro l hl
            exact hrec.1 l (hhead.1 l hl)
          · intro m hm loc hloc ll hll
            rcases List.mem_cons.mp hm with rfl | hmem
            · exact hrec.1 ll (hhead.2 loc hloc ll hll)
            · exact hrec.2 m hmem loc hloc ll hll

lemma parse_po_file_wf :
    ∀ (msgs : List POMessage) (locale : Option String) (tm : TransDict),
    (∀ m ∈ msgs, ∀ loc ∈ m.locations, locParses loc = true) →
    parse_po_file msgs locale tm ≠ Except.error UploadErr.valueError := by
  intro msgs
  induction msgs with
  | nil => intro locale tm _ h; simp [parse_po_file] at h
  | cons msg rest ih =>
      intro locale tm hwf h
      simp only [parse_po_file] at h
      cases hpl : parseLocations msg.id msg.str msg.locations locale tm with
      | error e =>
          simp only [hpl] at h
          cases e with
          | valueError =>
              exact parseLocations_wf msg.id msg.str msg.locations locale tm
                (fun loc hloc => hwf msg (by simp) loc hloc) hpl
          | protocolError emsg => exact absurd h (by simp)
      | ok r' =>
          obtain ⟨locale', tm'⟩ := r'
          simp only [hpl] at h
          exact ih locale' tm'
            (fun m hm loc hloc => hwf m (by simp [hm]) loc hloc) h

/-- C6: a catalog file whose locations all parse structurally but which
carries an unknown protocol tag, or locations referencing two different
locales, is rejected with a protocol error; the whole upload answers 400
and the persisted state is returned untouched (`update_translations` is
never reached). -/
theorem upload_locale_isolation {σ : Type}
    (updateFn : TransDict → σ → σ × List String)
    (hasRights : String → Bool) (st : σ) (msgs : List POMessage)
    (hwf : ∀ m ∈ msgs, ∀ loc ∈ m.locations, locParses loc = true)
    (hbad : (∃ m ∈ msgs, ∃ loc ∈ m.locations, locBadProtocol loc = true) ∨
            (∃ m1 ∈ msgs, ∃ loc1 ∈ m1.locations, ∃ m2 ∈ msgs,
              ∃ loc2 ∈ m2.locations, locLocale loc1 ≠ locLocale loc2)) :
    ∃ emsg,
      parse_po_file msgs none [] =
        Except.error (UploadErr.protocolError emsg) ∧
      parseAll [msgs] [] = Except.error (UploadErr.protocolError emsg) ∧
      postUpload updateFn hasRights [msgs] st = Except.ok (400, st) := by
  cases hres : parse_po_file msgs none [] with
  | ok r =>
      exfalso
      rcases hbad with ⟨m, hm, loc, hloc, hbadp⟩ |
        ⟨m1, hm1, loc1, hloc1, m2, hm2, loc2, hloc2, hne⟩
      · have hgood := parse_po_file_ok_protocol msgs none [] r hres m hm
          loc hloc
        rw [hgood] at hbadp
        exact Bool.false_ne_true hbadp
      · obtain ⟨ll1, h1⟩ := locParses_some loc1 (hwf m1 hm1 loc1 hloc1)
        obtain ⟨ll2, h2⟩ := locParses_some loc2 (hwf m2 hm2 loc2 hloc2)
        have hP := (parse_po_file_ok_locale msgs none [] r hres).2
        have e1 := hP m1 hm1 loc1 hloc1 ll1 h1
        have e2 := hP m2 hm2 loc2 hloc2 ll2 h2
        exact hne (h1.trans ((e1.symm.trans e2).trans h2.symm))
  | error e =>
      cases e with
      | valueError => exact absurd hres (parse_po_file_wf msgs none [] hwf)
      | protocolError emsg =>
          refine ⟨emsg, rfl, ?_, ?_⟩
          · simp [parseAll, hres]
          · simp [postUpload, parseAll, hres]

/-- Catalog message for the C6 witness: one unit located in two
different locales. -/
def mixedLocaleMsg : POMessage :=
  ⟨"Hello", "Bonjour",
   ["GCB-1|title|string|unit:1:fr", "GCB-1|title|string|unit:1:de"]⟩

/-- Witness for the locale-isolation theorem: a message whose two
locations name locales "fr" and "de" is rejected with 400 and the state
(here a bare counter) is untouched. -/
theorem upload_locale_isolation_witness :
    (∀ m ∈ [mixedLocaleMsg], ∀ loc ∈ m.locations, locParses loc = true) ∧
    (∃ emsg,
      parse_po_file [mixedLocaleMsg] none [] =
        Except.error (UploadErr.protocolError emsg) ∧
      parseAll [[mixedLocaleMsg]] [] =
        Except.error (UploadErr.protocolError emsg) ∧
      postUpload (fun _ s => (s, [])) (fun _ => true) [[mixedLocaleMsg]]
          (0 : Nat) =
        Except.ok (400, 0)) :=
  ⟨by decide,
   upload_locale_isolation (fun _ s => (s, [])) (fun _ => true) 0
     [mixedLocaleMsg] (by decide) (by decide)⟩

end I18nDashboard
